import Mathlib

/-!
Verification of the CSV splitting routine `CSVSplitTool.csv_split`
(file `pretty.py`) of the csv_split_gui repository.

The routine is shallowly embedded over an explicit filesystem state:
* a `Row` is the list of fields produced by `csv.reader` for one line;
* the filesystem `FS` records the existing directories, the files (as an
  association list from paths to their row contents), and a chronological
  trace of the performed filesystem operations (directory creations, file
  opens for reading, file creations/truncations for writing, deletions);
* `csv_split` mirrors the Python routine line by line: the
  `entries_per_file <= 0` guard raising `ValueError`, the
  `os.path.exists`/`os.mkdir` step, opening the source, `next(reader)` for
  the header (raising `StopIteration` on an empty source), and the
  chunk-writing loop `splitLoop` with its `if i == 0: os.remove` deletion
  of an output file that received zero data rows.

Errors are represented by the spec's taxonomy: `invalidArgument` models
the `ValueError`, `ioError` models `OSError`/`FileNotFoundError`, and
`formatError` models the `StopIteration` escaping from `next(reader)`
when no header row is obtainable.
-/

namespace CsvSplit

/-- One parsed CSV record: the list of its fields. -/
abbrev Row := List String

/-- A filesystem path, as its list of segments. -/
abbrev Path := List String

/-- A filesystem operation performed by the routine. -/
inductive Event where
  /-- `os.mkdir` created this directory. -/
  | mkdirE (p : Path)
  /-- the file was opened for reading. -/
  | openReadE (p : Path)
  /-- the file was opened with mode `w` (created or truncated). -/
  | openWriteE (p : Path)
  /-- `os.remove` deleted this file. -/
  | removeE (p : Path)
deriving DecidableEq

/-- Error taxonomy of the spec; each constructor names the Python
exception class it models. -/
inductive SplitErr where
  /-- models `ValueError`. -/
  | invalidArgument (msg : String)
  /-- models `OSError` / `FileNotFoundError`. -/
  | ioError (msg : String)
  /-- models the `StopIteration` raised by `next(reader)` when the source
  yields no header row. -/
  | formatError (msg : String)
deriving DecidableEq

/-- Filesystem state: directories, files with their contents, and the
chronological trace of performed operations. -/
structure FS where
  dirs : List Path
  files : List (Path × List Row)
  trace : List Event

/-- Content of the file at `p`, if `p` exists as a file. -/
def readFile (fs : FS) (p : Path) : Option (List Row) :=
  (fs.files.find? (fun e => e.1 == p)).map (fun e => e.2)

/-- Models `os.path.exists`: `p` exists as a directory or as a file. -/
def pathExists (fs : FS) (p : Path) : Bool :=
  fs.dirs.contains p || fs.files.any (fun e => e.1 == p)

/-- Message of the `FileNotFoundError` raised by `os.mkdir` when an
intermediate path segment is missing. -/
def mkdirFailMsg : String := "No such file or directory"

/-- Models `os.mkdir`: single-level directory creation. It succeeds when
the parent of `p` exists (the empty parent stands for the working
directory); it fails when an intermediate path segment is missing, and
never creates multi-level nested paths. -/
def mkdir (fs : FS) (p : Path) : Except SplitErr FS :=
  if p.dropLast = [] ∨ p.dropLast ∈ fs.dirs then
    .ok { fs with dirs := p :: fs.dirs, trace := fs.trace ++ [.mkdirE p] }
  else
    .error (.ioError mkdirFailMsg)

/-- Message of the `OSError` raised by `open(source_filepath, .r.)` when
the source cannot be read. -/
def openFailMsg : String := "source file not readable"

/-- Models `open(p, .r.)` followed by `csv.reader`: yields the rows of the
file at `p`, or an `ioError` when no such file exists. -/
def openRead (fs : FS) (p : Path) : Except SplitErr (FS × List Row) :=
  match fs.files.find? (fun e => e.1 == p) with
  | some e => .ok ({ fs with trace := fs.trace ++ [.openReadE p] }, e.2)
  | none => .error (.ioError openFailMsg)

/-- Models `open(p, .w.)` plus the row writes up to closing: the file at
`p` is created or truncated and ends up holding exactly `content`. -/
def writeFileOp (fs : FS) (p : Path) (content : List Row) : FS :=
  { fs with
    files := (p, content) :: fs.files.filter (fun e => e.1 != p),
    trace := fs.trace ++ [.openWriteE p] }

/-- Models `os.remove(p)`. -/
def removeFileOp (fs : FS) (p : Path) : FS :=
  { fs with
    files := fs.files.filter (fun e => e.1 != p),
    trace := fs.trace ++ [.removeE p] }

/-- Decimal digit character, as Python renders nonnegative integers. -/
def digitChar (n : Nat) : Char :=
  match n with
  | 1 => '1'
  | 2 => '2'
  | 3 => '3'
  | 4 => '4'
  | 5 => '5'
  | 6 => '6'
  | 7 => '7'
  | 8 => '8'
  | 9 => '9'
  | _ => '0'

/-- Numeric value of a decimal digit character. -/
def digitVal (c : Char) : Nat :=
  match c with
  | '1' => 1
  | '2' => 2
  | '3' => 3
  | '4' => 4
  | '5' => 5
  | '6' => 6
  | '7' => 7
  | '8' => 8
  | '9' => 9
  | _ => 0

/-- Decimal digits of `n`, most significant first; `fuel` bounds the
recursion depth (`fuel = n` always suffices). -/
def natToDigitsAux (fuel n : Nat) : List Char :=
  match fuel with
  | 0 => [digitChar n]
  | f + 1 => if n < 10 then [digitChar n] else natToDigitsAux f (n / 10) ++ [digitChar (n % 10)]

/-- Decimal rendering of `n`, as the Python f-string renders the file
index `file_idx` into the target file name. -/
def natToDec (n : Nat) : String :=
  ⟨natToDigitsAux n n⟩

/-- Value of a list of decimal digit characters, most significant first. -/
def parseDec (cs : List Char) : Nat :=
  cs.foldl (fun a c => a * 10 + digitVal c) 0

theorem digitVal_digitChar {n : Nat} (h : n < 10) : digitVal (digitChar n) = n := by
  interval_cases n <;> rfl

theorem parseDec_natToDigitsAux : ∀ fuel n, n ≤ fuel → parseDec (natToDigitsAux fuel n) = n := by
  intro fuel
  induction fuel with
  | zero =>
      intro n hn
      have : n = 0 := Nat.le_zero.mp hn
      subst this
      rfl
  | succ f ih =>
      intro n hn
      by_cases h : n < 10
      · simp only [natToDigitsAux, if_pos h, parseDec, List.foldl]
        simpa using digitVal_digitChar h
      · have h10 : 10 ≤ n := Nat.le_of_not_lt h
        have hdiv : n / 10 ≤ f := by
          have : n / 10 < n := Nat.div_lt_self (by omega) (by omega)
          omega
        simp only [natToDigitsAux, if_neg h, parseDec, List.foldl_append]
        have ihv : (natToDigitsAux f (n / 10)).foldl (fun a c => a * 10 + digitVal c) 0 = n / 10 :=
          ih (n / 10) hdiv
        simp only [ihv, List.foldl]
        rw [digitVal_digitChar (Nat.mod_lt n (by omega))]
        omega

theorem natToDec_injective {a b : Nat} (h : natToDec a = natToDec b) : a = b := by
  have hd : natToDigitsAux a a = natToDigitsAux b b := congrArg String.data h
  have ha := parseDec_natToDigitsAux a a (Nat.le_refl a)
  have hb := parseDec_natToDigitsAux b b (Nat.le_refl b)
  rw [← ha, ← hb, hd]

/-- Name of the output file with index `idx`: this is the Python
f-string building `target_filename` from `new_file_prefix` (called `pfx`
here) and `file_idx`, that is the prefix, an underscore, the decimal
index, and the `.csv` extension. -/
def targetFilename (pfx : String) (idx : Nat) : String :=
  pfx ++ "_" ++ natToDec idx ++ ".csv"

/-- Full path of the output file with index `idx`: `os.path.join` of the
destination folder and the target file name. -/
def targetPath (dest : Path) (pfx : String) (idx : Nat) : Path :=
  dest ++ [targetFilename pfx idx]

theorem targetFilename_inj {pfx : String} {i j : Nat}
    (h : targetFilename pfx i = targetFilename pfx j) : i = j := by
  have hdata := congrArg String.data h
  simp only [targetFilename, String.data_append, List.append_assoc] at hdata
  have h1 : (natToDec i).data ++ (".csv" : String).data
      = (natToDec j).data ++ (".csv" : String).data :=
    List.append_cancel_left (List.append_cancel_left hdata)
  have h2 : (natToDec i).data = (natToDec j).data := List.append_cancel_right h1
  exact natToDec_injective (String.ext h2)

theorem targetPath_inj {dest : Path} {pfx : String} {i j : Nat}
    (h : targetPath dest pfx i = targetPath dest pfx j) : i = j := by
  have h1 : [targetFilename pfx i] = [targetFilename pfx j] :=
    List.append_cancel_left h
  simp only [List.cons.injEq, and_true] at h1
  exact targetFilename_inj h1

theorem targetPath_ne {dest : Path} {pfx : String} {i j : Nat} (h : i ≠ j) :
    targetPath dest pfx i ≠ targetPath dest pfx j :=
  fun he => h (targetPath_inj he)

theorem readFile_writeFileOp_self (fs : FS) (p : Path) (c : List Row) :
    readFile (writeFileOp fs p c) p = some c := by
  simp [readFile, writeFileOp]

theorem find?_filter_ne (l : List (Path × List Row)) (p q : Path) (h : q ≠ p) :
    (l.filter (fun e => e.1 != p)).find? (fun e => e.1 == q)
      = l.find? (fun e => e.1 == q) := by
  induction l with
  | nil => rfl
  | cons x xs ih =>
      by_cases hxp : x.1 = p
      · have hxq : x.1 ≠ q := fun he => h (he ▸ hxp)
        rw [List.filter_cons, if_neg (by simp [hxp]), ih,
          List.find?_cons_of_neg _ (by simp [hxq])]
      · by_cases hxq : x.1 = q
        · rw [List.filter_cons, if_pos (by simp [hxp]),
            List.find?_cons_of_pos _ (by simp [hxq]),
            List.find?_cons_of_pos _ (by simp [hxq])]
        · rw [List.filter_cons, if_pos (by simp [hxp]),
            List.find?_cons_of_neg _ (by simp [hxq]),
            List.find?_cons_of_neg _ (by simp [hxq]), ih]

theorem readFile_writeFileOp_ne (fs : FS) (p q : Path) (c : List Row) (h : q ≠ p) :
    readFile (writeFileOp fs p c) q = readFile fs q := by
  have hq : ¬ (((p, c) : Path × List Row).1 == q) = true := by
    simp only [beq_iff_eq]
    exact fun he => h he.symm
  have h1 : List.find? (fun e => e.1 == q) ((p, c) :: fs.files.filter (fun e => e.1 != p))
      = List.find? (fun e => e.1 == q) (fs.files.filter (fun e => e.1 != p)) :=
    List.find?_cons_of_neg _ hq
  simp only [readFile, writeFileOp]
  rw [h1, find?_filter_ne fs.files p q h]

theorem readFile_removeFileOp_self (fs : FS) (p : Path) :
    readFile (removeFileOp fs p) p = none := by
  have hnone : (fs.files.filter (fun e => e.1 != p)).find? (fun e => e.1 == p) = none := by
    rw [List.find?_eq_none]
    intro x hx
    have h2 := (List.mem_filter.mp hx).2
    simp only [bne_iff_ne, ne_eq] at h2
    simp [h2]
  simp [readFile, removeFileOp, hnone]

theorem readFile_removeFileOp_ne (fs : FS) (p q : Path) (h : q ≠ p) :
    readFile (removeFileOp fs p) q = readFile fs q := by
  simp [readFile, removeFileOp, find?_filter_ne fs.files p q h]

theorem dirs_writeFileOp (fs : FS) (p : Path) (c : List Row) :
    (writeFileOp fs p c).dirs = fs.dirs := rfl

theorem dirs_removeFileOp (fs : FS) (p : Path) :
    (removeFileOp fs p).dirs = fs.dirs := rfl

/-- Paths of the files opened for writing, in chronological order. -/
def writesOf (tr : List Event) : List Path :=
  tr.filterMap (fun e =>
    match e with
    | .openWriteE p => some p
    | _ => none)

/-- Paths of the files deleted by `os.remove`, in chronological order. -/
def removesOf (tr : List Event) : List Path :=
  tr.filterMap (fun e =>
    match e with
    | .removeE p => some p
    | _ => none)

theorem writesOf_append (t1 t2 : List Event) :
    writesOf (t1 ++ t2) = writesOf t1 ++ writesOf t2 := by
  simp [writesOf]

theorem removesOf_append (t1 t2 : List Event) :
    removesOf (t1 ++ t2) = removesOf t1 ++ removesOf t2 := by
  simp [removesOf]

theorem openWriteE_mem_of_mem_writesOf {tr : List Event} {p : Path}
    (h : p ∈ writesOf tr) : Event.openWriteE p ∈ tr := by
  obtain ⟨e, he, hep⟩ := List.mem_filterMap.mp h
  cases e <;> simp_all

/-- Rows written before the data rows: `if headers: writer.writerow(headers)`
writes the header row exactly when it is a non-empty list (Python list
truthiness). -/
def hdrPart (headers : Row) : List Row :=
  if headers.isEmpty then [] else [headers]

/-- One iteration of the body of the outer `while records_exist` loop,
after the data rows for this file are known: the target file is opened
with mode `w` and ends up holding the header part plus the `taken` data
rows; then `if i == 0: os.remove(target_filepath)` deletes it when the
inner loop wrote zero data rows (`i` counts the rows written). -/
def finishChunk (fs : FS) (target : Path) (headers : Row) (taken : List Row) : FS :=
  if taken.length = 0 then
    removeFileOp (writeFileOp fs target (hdrPart headers ++ taken)) target
  else
    writeFileOp fs target (hdrPart headers ++ taken)

/-- The outer `while records_exist` loop of `csv_split`. Each iteration
takes up to `epfm1 + 1` rows from the remaining `rows` (the reader),
writes them behind the header into the file with index `fileIdx`, deletes
that file when it received zero data rows, and increments the index.
`records_exist` becomes `False` exactly when the inner loop hit
`StopIteration`, that is when fewer rows remained than `entries_per_file`.
The entries-per-file count is passed as `epfm1 + 1` so that it is
positive by construction; `csv_split` reaches this loop only after its
guard established `entries_per_file >= 1`. Returns the final filesystem
and the final value of the `file_idx` counter. -/
def splitLoop (dest : Path) (pfx : String) (headers : Row) (epfm1 : Nat)
    (fs : FS) (rows : List Row) (fileIdx : Nat) : FS × Nat :=
  if rows.length < epfm1 + 1 then
    (finishChunk fs (targetPath dest pfx fileIdx) headers (rows.take (epfm1 + 1)),
      fileIdx + 1)
  else
    splitLoop dest pfx headers epfm1
      (finishChunk fs (targetPath dest pfx fileIdx) headers (rows.take (epfm1 + 1)))
      (rows.drop (epfm1 + 1)) (fileIdx + 1)
termination_by rows.length
decreasing_by simp only [List.length_drop]; omega

theorem dirs_finishChunk (fs : FS) (target : Path) (headers : Row) (taken : List Row) :
    (finishChunk fs target headers taken).dirs = fs.dirs := by
  unfold finishChunk
  split <;> rfl

theorem readFile_finishChunk_self_pos {taken : List Row} (fs : FS) (target : Path)
    (headers : Row) (h : taken.length ≠ 0) :
    readFile (finishChunk fs target headers taken) target
      = some (hdrPart headers ++ taken) := by
  rw [finishChunk, if_neg h]
  exact readFile_writeFileOp_self ..

theorem readFile_finishChunk_self_zero {taken : List Row} (fs : FS) (target : Path)
    (headers : Row) (h : taken.length = 0) :
    readFile (finishChunk fs target headers taken) target = none := by
  rw [finishChunk, if_pos h]
  exact readFile_removeFileOp_self ..

theorem readFile_finishChunk_ne {q target : Path} (fs : FS) (headers : Row)
    (taken : List Row) (h : q ≠ target) :
    readFile (finishChunk fs target headers taken) q = readFile fs q := by
  unfold finishChunk
  split
  · rw [readFile_removeFileOp_ne _ _ _ h, readFile_writeFileOp_ne _ _ _ _ h]
  · rw [readFile_writeFileOp_ne _ _ _ _ h]

theorem trace_finishChunk (fs : FS) (target : Path) (headers : Row) (taken : List Row) :
    (finishChunk fs target headers taken).trace
      = fs.trace ++ (Event.openWriteE target
          :: if taken.length = 0 then [Event.removeE target] else []) := by
  unfold finishChunk
  split <;> simp [writeFileOp, removeFileOp]

theorem writesOf_finishChunk (fs : FS) (target : Path) (headers : Row) (taken : List Row) :
    writesOf (finishChunk fs target headers taken).trace
      = writesOf fs.trace ++ [target] := by
  rw [trace_finishChunk, writesOf_append]
  congr 1
  split <;> simp [writesOf]

theorem removesOf_finishChunk (fs : FS) (target : Path) (headers : Row) (taken : List Row) :
    removesOf (finishChunk fs target headers taken).trace
      = removesOf fs.trace ++ (if taken.length = 0 then [target] else []) := by
  rw [trace_finishChunk, removesOf_append]
  congr 1
  split <;> simp [removesOf]

theorem splitLoop_dirs (dest : Path) (pfx : String) (headers : Row) (epfm1 : Nat)
    (fs : FS) (rows : List Row) (fileIdx : Nat) :
    (splitLoop dest pfx headers epfm1 fs rows fileIdx).1.dirs = fs.dirs := by
  induction fs, rows, fileIdx using splitLoop.induct dest pfx headers epfm1 with
  | case1 fs rows fileIdx h =>
      rw [splitLoop, if_pos h]
      exact dirs_finishChunk ..
  | case2 fs rows fileIdx h ih =>
      rw [splitLoop, if_neg h]
      rw [ih, dirs_finishChunk]

theorem splitLoop_readFile_frame (dest : Path) (pfx : String) (headers : Row)
    (epfm1 : Nat) (fs : FS) (rows : List Row) (fileIdx : Nat) :
    ∀ q : Path,
      (∀ s, s ≤ rows.length / (epfm1 + 1) → q ≠ targetPath dest pfx (fileIdx + s)) →
      readFile (splitLoop dest pfx headers epfm1 fs rows fileIdx).1 q = readFile fs q := by
  induction fs, rows, fileIdx using splitLoop.induct dest pfx headers epfm1 with
  | case1 fs rows fileIdx h =>
      intro q hq
      rw [splitLoop, if_pos h]
      exact readFile_finishChunk_ne _ _ _ (by simpa using hq 0 (Nat.zero_le _))
  | case2 fs rows fileIdx h ih =>
      intro q hq
      have hlen : epfm1 + 1 ≤ rows.length := Nat.le_of_not_lt h
      have hd : rows.length / (epfm1 + 1)
          = (rows.length - (epfm1 + 1)) / (epfm1 + 1) + 1 :=
        Nat.div_eq_sub_div (Nat.succ_pos _) hlen
      have hq2 : ∀ s, s ≤ (rows.drop (epfm1 + 1)).length / (epfm1 + 1) →
          q ≠ targetPath dest pfx (fileIdx + 1 + s) := by
        intro s hs
        rw [List.length_drop] at hs
        have hs1 : s + 1 ≤ rows.length / (epfm1 + 1) := by
          rw [hd]
          exact Nat.succ_le_succ hs
        have := hq (s + 1) hs1
        rwa [show fileIdx + (s + 1) = fileIdx + 1 + s from by omega] at this
      rw [splitLoop, if_neg h, ih q hq2,
        readFile_finishChunk_ne _ _ _ (by simpa using hq 0 (Nat.zero_le _))]

theorem splitLoop_readFile_deleted (dest : Path) (pfx : String) (headers : Row)
    (epfm1 : Nat) (fs : FS) (rows : List Row) (fileIdx : Nat) :
    (epfm1 + 1) ∣ rows.length →
    readFile (splitLoop dest pfx headers epfm1 fs rows fileIdx).1
      (targetPath dest pfx (fileIdx + rows.length / (epfm1 + 1))) = none := by
  induction fs, rows, fileIdx using splitLoop.induct dest pfx headers epfm1 with
  | case1 fs rows fileIdx h =>
      intro hdvd
      have hz : rows.length = 0 := Nat.eq_zero_of_dvd_of_lt hdvd h
      have hrows : rows = [] := List.length_eq_zero.mp hz
      subst hrows
      rw [splitLoop, if_pos h]
      simp only [List.length_nil, Nat.zero_div, Nat.add_zero]
      exact readFile_finishChunk_self_zero _ _ _ (by simp)
  | case2 fs rows fileIdx h ih =>
      intro hdvd
      have hlen : epfm1 + 1 ≤ rows.length := Nat.le_of_not_lt h
      have hd : rows.length / (epfm1 + 1)
          = (rows.length - (epfm1 + 1)) / (epfm1 + 1) + 1 :=
        Nat.div_eq_sub_div (Nat.succ_pos _) hlen
      have hdvd' : (epfm1 + 1) ∣ (rows.drop (epfm1 + 1)).length := by
        rw [List.length_drop]
        exact Nat.dvd_sub' hdvd dvd_rfl
      have h2 := ih hdvd'
      rw [List.length_drop] at h2
      have hidx : fileIdx + 1 + (rows.length - (epfm1 + 1)) / (epfm1 + 1)
          = fileIdx + rows.length / (epfm1 + 1) := by
        rw [hd]
        ring
      rw [hidx] at h2
      rw [splitLoop, if_neg h]
      exact h2

theorem cons_range_map {α : Type} (g : Nat → α) (m i : Nat) :
    g i :: (List.range m).map (fun s => g (i + 1 + s))
      = (List.range (m + 1)).map (fun s => g (i + s)) := by
  rw [List.range_succ_eq_map, List.map_cons, Nat.add_zero, List.map_map]
  congr 1
  apply List.map_congr_left
  intro s _
  simp only [Function.comp_apply]
  congr 1
  omega

theorem splitLoop_writesOf (dest : Path) (pfx : String) (headers : Row)
    (epfm1 : Nat) (fs : FS) (rows : List Row) (fileIdx : Nat) :
    writesOf (splitLoop dest pfx headers epfm1 fs rows fileIdx).1.trace
      = writesOf fs.trace
        ++ (List.range (rows.length / (epfm1 + 1) + 1)).map
            (fun s => targetPath dest pfx (fileIdx + s)) := by
  induction fs, rows, fileIdx using splitLoop.induct dest pfx headers epfm1 with
  | case1 fs rows fileIdx h =>
      rw [splitLoop, if_pos h, writesOf_finishChunk, Nat.div_eq_of_lt h]
      rw [show List.range 1 = [0] from rfl, List.map_cons, List.map_nil, Nat.add_zero]
  | case2 fs rows fileIdx h ih =>
      have hlen : epfm1 + 1 ≤ rows.length := Nat.le_of_not_lt h
      have hd : rows.length / (epfm1 + 1)
          = (rows.length - (epfm1 + 1)) / (epfm1 + 1) + 1 :=
        Nat.div_eq_sub_div (Nat.succ_pos _) hlen
      rw [splitLoop, if_neg h, ih, writesOf_finishChunk, List.length_drop,
        List.append_assoc, hd, List.singleton_append]
      congr 1
      exact cons_range_map (targetPath dest pfx)
        ((rows.length - (epfm1 + 1)) / (epfm1 + 1) + 1) fileIdx

theorem splitLoop_removesOf (dest : Path) (pfx : String) (headers : Row)
    (epfm1 : Nat) (fs : FS) (rows : List Row) (fileIdx : Nat) :
    removesOf (splitLoop dest pfx headers epfm1 fs rows fileIdx).1.trace
      = removesOf fs.trace
        ++ (if (epfm1 + 1) ∣ rows.length then
              [targetPath dest pfx (fileIdx + rows.length / (epfm1 + 1))]
            else []) := by
  induction fs, rows, fileIdx using splitLoop.induct dest pfx headers epfm1 with
  | case1 fs rows fileIdx h =>
      rw [splitLoop, if_pos h, removesOf_finishChunk]
      by_cases hz : rows.length = 0
      · have htk : (rows.take (epfm1 + 1)).length = 0 := by
          simp [List.length_take, hz]
        rw [if_pos htk, if_pos (hz ▸ Nat.dvd_zero _)]
        simp [hz]
      · have htk : ¬(rows.take (epfm1 + 1)).length = 0 := by
          simp only [List.length_take]
          omega
        have hnd : ¬(epfm1 + 1) ∣ rows.length := fun hc =>
          hz (Nat.eq_zero_of_dvd_of_lt hc h)
        rw [if_neg htk, if_neg hnd]
  | case2 fs rows fileIdx h ih =>
      have hlen : epfm1 + 1 ≤ rows.length := Nat.le_of_not_lt h
      have hd : rows.length / (epfm1 + 1)
          = (rows.length - (epfm1 + 1)) / (epfm1 + 1) + 1 :=
        Nat.div_eq_sub_div (Nat.succ_pos _) hlen
      have htk : ¬(rows.take (epfm1 + 1)).length = 0 := by
        simp only [List.length_take]
        omega
      rw [splitLoop, if_neg h, ih, removesOf_finishChunk, if_neg htk,
        List.length_drop, List.append_nil]
      by_cases hdvd : (epfm1 + 1) ∣ rows.length
      · have hdvd' : (epfm1 + 1) ∣ rows.length - (epfm1 + 1) :=
          Nat.dvd_sub' hdvd dvd_rfl
        rw [if_pos hdvd', if_pos hdvd]
        have hidx : fileIdx + 1 + (rows.length - (epfm1 + 1)) / (epfm1 + 1)
            = fileIdx + rows.length / (epfm1 + 1) := by
          rw [hd]
          ring
        rw [hidx]
      · have hdvd' : ¬(epfm1 + 1) ∣ rows.length - (epfm1 + 1) := by
          intro hc
          apply hdvd
          have heq : rows.length = rows.length - (epfm1 + 1) + (epfm1 + 1) := by
            omega
          rw [heq]
          exact Nat.dvd_add hc dvd_rfl
        rw [if_neg hdvd', if_neg hdvd]

theorem splitLoop_fileIdx (dest : Path) (pfx : String) (headers : Row)
    (epfm1 : Nat) (fs : FS) (rows : List Row) (fileIdx : Nat) :
    (splitLoop dest pfx headers epfm1 fs rows fileIdx).2
      = fileIdx + (rows.length / (epfm1 + 1) + 1) := by
  induction fs, rows, fileIdx using splitLoop.induct dest pfx headers epfm1 with
  | case1 fs rows fileIdx h =>
      rw [splitLoop, if_pos h, Nat.div_eq_of_lt h]
  | case2 fs rows fileIdx h ih =>
      have hlen : epfm1 + 1 ≤ rows.length := Nat.le_of_not_lt h
      have hd : rows.length / (epfm1 + 1)
          = (rows.length - (epfm1 + 1)) / (epfm1 + 1) + 1 :=
        Nat.div_eq_sub_div (Nat.succ_pos _) hlen
      rw [splitLoop, if_neg h, ih, List.length_drop, hd]
      ring

/-- Message of the `ValueError` raised for a non-positive
`entries_per_file`. -/
def entriesMsg : String := "The file must have one or more entries"

/-- Message of the `StopIteration` escaping from `next(reader)` on a
source with no header row (Python raises it with an empty message). -/
def noHeaderMsg : String := ""

/-- The `csv_split` method of `CSVSplitTool`, over the explicit
filesystem state. It mirrors the source: reject `entries_per_file <= 0`
with the `ValueError`; create `dest_folder` with `os.mkdir` when
`os.path.exists` is false; open the source and read the header row with
`next(reader)` (an empty source makes that raise); then run the chunk
loop starting at `file_idx = 0`. The result pairs the outcome with the
filesystem state reached, errors included. -/
def csv_split (fs : FS) (source_filepath dest_folder : Path)
    (pfx : String) (entries_per_file : Int) : Except SplitErr Unit × FS :=
  if entries_per_file ≤ 0 then
    (.error (.invalidArgument entriesMsg), fs)
  else
    match (if pathExists fs dest_folder then Except.ok fs else mkdir fs dest_folder) with
    | .error e => (.error e, fs)
    | .ok fs1 =>
      match openRead fs1 source_filepath with
      | .error e => (.error e, fs1)
      | .ok (fs2, srcRows) =>
        match srcRows with
        | [] => (.error (.formatError noHeaderMsg), fs2)
        | headers :: dataRows =>
          (.ok (),
            (splitLoop dest_folder pfx headers (entries_per_file.toNat - 1)
              fs2 dataRows 0).1)

/-- Specification vocabulary: the data rows grouped as the loop groups
them, into consecutive groups of `epfm1 + 1` rows, the last group
possibly shorter but never empty. Surviving output file `t` holds
exactly group `t`. -/
def chunks (epfm1 : Nat) : List Row → List (List Row)
  | [] => []
  | r :: rs => ((r :: rs).take (epfm1 + 1)) :: chunks epfm1 ((r :: rs).drop (epfm1 + 1))
termination_by rows => rows.length
decreasing_by simp only [List.length_drop, List.length_cons]; omega

theorem chunks_eq_nil_iff (epfm1 : Nat) (rows : List Row) :
    chunks epfm1 rows = [] ↔ rows = [] := by
  cases rows with
  | nil => simp [chunks]
  | cons r rs => rw [chunks]; simp

theorem chunks_flatten (epfm1 : Nat) (rows : List Row) :
    (chunks epfm1 rows).flatten = rows := by
  induction rows using chunks.induct epfm1 with
  | case1 => rw [show chunks epfm1 [] = [] from by rw [chunks]]; rfl
  | case2 r rs ih => rw [chunks, List.flatten_cons, ih, List.take_append_drop]

theorem chunks_bounds (epfm1 : Nat) (rows : List Row) :
    ∀ c ∈ chunks epfm1 rows, 0 < c.length ∧ c.length ≤ epfm1 + 1 := by
  induction rows using chunks.induct epfm1 with
  | case1 =>
      intro c hc
      rw [show chunks epfm1 [] = [] from by rw [chunks]] at hc
      simp at hc
  | case2 r rs ih =>
      intro c hc
      rw [chunks] at hc
      rcases List.mem_cons.mp hc with hc | hc
      · subst hc
        refine ⟨by simp [List.take_succ_cons], ?_⟩
        rw [List.length_take]
        exact Nat.min_le_left _ _
      · exact ih c hc

theorem chunks_full (epfm1 : Nat) (rows : List Row) :
    ∀ t c, (chunks epfm1 rows).get? t = some c →
      t + 1 < (chunks epfm1 rows).length → c.length = epfm1 + 1 := by
  induction rows using chunks.induct epfm1 with
  | case1 =>
      intro t c hc _
      rw [show chunks epfm1 [] = [] from by rw [chunks]] at hc
      simp at hc
  | case2 r rs ih =>
      intro t c hc hlt
      rw [chunks] at hc hlt
      cases t with
      | zero =>
          rw [List.get?_cons_zero, Option.some.injEq] at hc
          subst hc
          rw [List.length_cons] at hlt
          have hne : chunks epfm1 ((r :: rs).drop (epfm1 + 1)) ≠ [] := by
            intro hnil
            rw [hnil] at hlt
            simp at hlt
          have hdrop : (r :: rs).drop (epfm1 + 1) ≠ [] := by
            intro hnil
            exact hne ((chunks_eq_nil_iff _ _).mpr hnil)
          have hlen : epfm1 + 1 < (r :: rs).length := by
            by_contra hle
            exact hdrop (List.drop_eq_nil_of_le (Nat.le_of_not_lt hle))
          rw [List.length_take]
          omega
      | succ t =>
          rw [List.get?_cons_succ] at hc
          rw [List.length_cons] at hlt
          exact ih t c hc (by omega)

theorem chunks_full_dvd (epfm1 : Nat) (rows : List Row) :
    ∀ t c, (epfm1 + 1) ∣ rows.length → (chunks epfm1 rows).get? t = some c →
      c.length = epfm1 + 1 := by
  induction rows using chunks.induct epfm1 with
  | case1 =>
      intro t c _ hc
      rw [show chunks epfm1 [] = [] from by rw [chunks]] at hc
      simp at hc
  | case2 r rs ih =>
      intro t c hdvd hc
      have hpos : 0 < (r :: rs).length := by simp
      have hlen : epfm1 + 1 ≤ (r :: rs).length := Nat.le_of_dvd hpos hdvd
      rw [chunks] at hc
      cases t with
      | zero =>
          rw [List.get?_cons_zero, Option.some.injEq] at hc
          subst hc
          rw [List.length_take]
          omega
      | succ t =>
          rw [List.get?_cons_succ] at hc
          have hdvd' : (epfm1 + 1) ∣ ((r :: rs).drop (epfm1 + 1)).length := by
            rw [List.length_drop]
            exact Nat.dvd_sub' hdvd dvd_rfl
          exact ih t c hdvd' hc

theorem chunks_length_dvd (epfm1 : Nat) (rows : List Row) :
    (epfm1 + 1) ∣ rows.length →
      (chunks epfm1 rows).length = rows.length / (epfm1 + 1) := by
  induction rows using chunks.induct epfm1 with
  | case1 =>
      intro _
      rw [show chunks epfm1 [] = [] from by rw [chunks]]
      simp
  | case2 r rs ih =>
      intro hdvd
      have hpos : 0 < (r :: rs).length := by simp
      have hlen : epfm1 + 1 ≤ (r :: rs).length := Nat.le_of_dvd hpos hdvd
      have hd : (r :: rs).length / (epfm1 + 1)
          = ((r :: rs).length - (epfm1 + 1)) / (epfm1 + 1) + 1 :=
        Nat.div_eq_sub_div (Nat.succ_pos _) hlen
      have hdvd' : (epfm1 + 1) ∣ ((r :: rs).drop (epfm1 + 1)).length := by
        rw [List.length_drop]
        exact Nat.dvd_sub' hdvd dvd_rfl
      rw [chunks, List.length_cons, ih hdvd', List.length_drop, hd]

theorem splitLoop_readFile_chunk (dest : Path) (pfx : String) (headers : Row)
    (epfm1 : Nat) (fs : FS) (rows : List Row) (fileIdx : Nat) :
    ∀ t c, (chunks epfm1 rows).get? t = some c →
      readFile (splitLoop dest pfx headers epfm1 fs rows fileIdx).1
        (targetPath dest pfx (fileIdx + t)) = some (hdrPart headers ++ c) := by
  induction fs, rows, fileIdx using splitLoop.induct dest pfx headers epfm1 with
  | case1 fs rows fileIdx h =>
      intro t c hc
      cases rows with
      | nil =>
          rw [show chunks epfm1 [] = [] from by rw [chunks]] at hc
          simp at hc
      | cons r rs =>
          rw [chunks] at hc
          have hdropnil : (r :: rs).drop (epfm1 + 1) = [] :=
            List.drop_eq_nil_of_le (Nat.le_of_lt h)
          rw [hdropnil, show chunks epfm1 [] = [] from by rw [chunks]] at hc
          cases t with
          | zero =>
              rw [List.get?_cons_zero, Option.some.injEq] at hc
              subst hc
              rw [splitLoop, if_pos h]
              simp only [Nat.add_zero]
              exact readFile_finishChunk_self_pos _ _ _ (by simp [List.take_succ_cons])
          | succ t =>
              rw [List.get?_cons_succ] at hc
              simp at hc
  | case2 fs rows fileIdx h ih =>
      intro t c hc
      cases rows with
      | nil =>
          rw [List.length_nil] at h
          exact absurd (Nat.succ_pos epfm1) h
      | cons r rs =>
          rw [chunks] at hc
          cases t with
          | zero =>
              rw [List.get?_cons_zero, Option.some.injEq] at hc
              subst hc
              rw [splitLoop, if_neg h]
              simp only [Nat.add_zero]
              have hfr := splitLoop_readFile_frame dest pfx headers epfm1
                (finishChunk fs (targetPath dest pfx fileIdx) headers
                  ((r :: rs).take (epfm1 + 1)))
                ((r :: rs).drop (epfm1 + 1)) (fileIdx + 1)
                (targetPath dest pfx fileIdx)
                (by
                  intro s _
                  exact targetPath_ne (by omega))
              rw [hfr]
              exact readFile_finishChunk_self_pos _ _ _ (by simp [List.take_succ_cons])
          | succ t =>
              rw [List.get?_cons_succ] at hc
              have h2 := ih t c hc
              rw [show fileIdx + (t + 1) = fileIdx + 1 + t from by omega]
              rw [splitLoop, if_neg h]
              exact h2

/-- On a valid request whose destination exists, `csv_split` succeeds and
its effect is exactly that of the chunk loop run on the state where the
source has been opened for reading. -/
theorem csv_split_ok (fs : FS) (src dest : Path) (pfx : String) (epf : Int)
    (headers : Row) (dataRows : List Row)
    (h1 : 1 ≤ epf) (hdest : pathExists fs dest = true)
    (hsrc : readFile fs src = some (headers :: dataRows)) :
    csv_split fs src dest pfx epf =
      (.ok (), (splitLoop dest pfx headers (epf.toNat - 1)
          { fs with trace := fs.trace ++ [Event.openReadE src] } dataRows 0).1) := by
  have hif : (if pathExists fs dest then Except.ok fs else mkdir fs dest) = Except.ok fs := by
    rw [hdest]
    simp
  have hread : openRead fs src
      = .ok ({ fs with trace := fs.trace ++ [Event.openReadE src] },
          headers :: dataRows) := by
    obtain ⟨e, hfind, he2⟩ : ∃ e, fs.files.find? (fun e => e.1 == src) = some e
        ∧ e.2 = headers :: dataRows := by
      unfold readFile at hsrc
      cases hf : fs.files.find? (fun e => e.1 == src) with
      | none => rw [hf] at hsrc; simp at hsrc
      | some e =>
          rw [hf] at hsrc
          simp at hsrc
          exact ⟨e, rfl, hsrc⟩
    unfold openRead
    rw [hfind]
    show Except.ok ({ fs with trace := fs.trace ++ [Event.openReadE src] }, e.2)
        = Except.ok ({ fs with trace := fs.trace ++ [Event.openReadE src] },
            headers :: dataRows)
    rw [he2]
  unfold csv_split
  rw [if_neg (by omega : ¬ epf ≤ 0)]
  split
  · rename_i e heq
    rw [hif] at heq
    simp at heq
  · rename_i fs1 heq
    rw [hif] at heq
    injection heq with hfs1
    subst hfs1
    split
    · rename_i e heq2
      rw [hread] at heq2
      simp at heq2
    · rename_i fs2 srcRows heq2
      rw [hread] at heq2
      simp only [Except.ok.injEq, Prod.mk.injEq] at heq2
      obtain ⟨hfs2, hrows⟩ := heq2
      subst hfs2
      subst hrows
      rfl

theorem hdrPart_nil : hdrPart [] = [] := rfl

theorem hdrPart_cons (a : String) (l : List String) : hdrPart (a :: l) = [a :: l] := rfl

theorem writesOf_openReadE (tr : List Event) (p : Path) :
    writesOf (tr ++ [Event.openReadE p]) = writesOf tr := by
  rw [writesOf_append]
  simp [writesOf]

theorem removesOf_openReadE (tr : List Event) (p : Path) :
    removesOf (tr ++ [Event.openReadE p]) = removesOf tr := by
  rw [removesOf_append]
  simp [removesOf]

/-- C1: for every valid split request (readable source with a header row,
`entries_per_file >= 1`), the split succeeds, surviving output file `t`
holds exactly the `t`-th group of source data rows behind the header
part, the groups concatenated in index order are exactly the source data
rows (no duplication, omission, or reordering), and the only further
attempted file (the trailing one at an exact multiple) does not survive. -/
theorem csv_split_partitions_rows (fs : FS) (src dest : Path) (pfx : String)
    (epf : Int) (headers : Row) (dataRows : List Row)
    (h1 : 1 ≤ epf) (hdest : pathExists fs dest = true)
    (hsrc : readFile fs src = some (headers :: dataRows)) :
    (csv_split fs src dest pfx epf).1 = .ok () ∧
    (∀ t c, (chunks (epf.toNat - 1) dataRows).get? t = some c →
      readFile (csv_split fs src dest pfx epf).2 (targetPath dest pfx t)
        = some (hdrPart headers ++ c)) ∧
    (chunks (epf.toNat - 1) dataRows).flatten = dataRows ∧
    (epf.toNat ∣ dataRows.length →
      readFile (csv_split fs src dest pfx epf).2
        (targetPath dest pfx (dataRows.length / epf.toNat)) = none) := by
  have hepf : epf.toNat - 1 + 1 = epf.toNat := by omega
  rw [csv_split_ok fs src dest pfx epf headers dataRows h1 hdest hsrc]
  refine ⟨rfl, ?_, chunks_flatten _ _, ?_⟩
  · intro t c hc
    have h2 := splitLoop_readFile_chunk dest pfx headers (epf.toNat - 1)
      { fs with trace := fs.trace ++ [Event.openReadE src] } dataRows 0 t c hc
    simpa using h2
  · intro hdvd
    rw [← hepf] at hdvd
    have h2 := splitLoop_readFile_deleted dest pfx headers (epf.toNat - 1)
      { fs with trace := fs.trace ++ [Event.openReadE src] } dataRows 0 hdvd
    rw [hepf] at h2
    simpa using h2

/-- C2: for every valid split request, every surviving output file holds
at least one and at most `entries_per_file` data rows, and every one
except possibly the last holds exactly `entries_per_file`; no surviving
output file has zero data rows: the only attempted file that receives
zero data rows — the trailing index at an exact multiple, including the
no-data-rows source — does not survive (the `if i == 0: os.remove`
deletion). -/
theorem csv_split_file_sizes (fs : FS) (src dest : Path) (pfx : String)
    (epf : Int) (headers : Row) (dataRows : List Row)
    (h1 : 1 ≤ epf) (hdest : pathExists fs dest = true)
    (hsrc : readFile fs src = some (headers :: dataRows)) :
    (csv_split fs src dest pfx epf).1 = .ok () ∧
    (∀ t c, (chunks (epf.toNat - 1) dataRows).get? t = some c →
      readFile (csv_split fs src dest pfx epf).2 (targetPath dest pfx t)
        = some (hdrPart headers ++ c) ∧
      1 ≤ c.length ∧ c.length ≤ epf.toNat ∧
      (t + 1 < (chunks (epf.toNat - 1) dataRows).length → c.length = epf.toNat)) ∧
    (epf.toNat ∣ dataRows.length →
      readFile (csv_split fs src dest pfx epf).2
        (targetPath dest pfx (dataRows.length / epf.toNat)) = none) := by
  have hepf : epf.toNat - 1 + 1 = epf.toNat := by omega
  rw [csv_split_ok fs src dest pfx epf headers dataRows h1 hdest hsrc]
  refine ⟨rfl, ?_, ?_⟩
  · intro t c hc
    have hmem := List.get?_mem hc
    have hb := chunks_bounds (epf.toNat - 1) dataRows c hmem
    have hfull := chunks_full (epf.toNat - 1) dataRows t c hc
    have h2 := splitLoop_readFile_chunk dest pfx headers (epf.toNat - 1)
      { fs with trace := fs.trace ++ [Event.openReadE src] } dataRows 0 t c hc
    refine ⟨by simpa using h2, hb.1, hepf ▸ hb.2, fun hlt => hepf ▸ hfull hlt⟩
  · intro hdvd
    rw [← hepf] at hdvd
    have h2 := splitLoop_readFile_deleted dest pfx headers (epf.toNat - 1)
      { fs with trace := fs.trace ++ [Event.openReadE src] } dataRows 0 hdvd
    rw [hepf] at h2
    simpa using h2

/-- C3: for every split request with `entries_per_file <= 0`, `csv_split`
fails with the `ValueError` (spec: `InvalidArgument`) whose message
contains the phrase about needing one or more entries, and the
filesystem state is returned untouched: no directory is created, no file
is opened or written, and the source is not read (the operation trace is
unchanged). -/
theorem csv_split_rejects_nonpositive (fs : FS) (src dest : Path) (pfx : String)
    (epf : Int) (h : epf ≤ 0) :
    csv_split fs src dest pfx epf
      = (.error (.invalidArgument entriesMsg), fs) ∧
    entriesMsg = "The file " ++ "must have one or more entries" := by
  constructor
  · unfold csv_split
    rw [if_pos h]
  · rfl

/-- C7: for every surviving output file of a valid split request, a
non-empty source header row is written verbatim as the first row of the
file, and with an empty header row the file starts directly with its
data rows. -/
theorem csv_split_header_row (fs : FS) (src dest : Path) (pfx : String)
    (epf : Int) (headers : Row) (dataRows : List Row)
    (h1 : 1 ≤ epf) (hdest : pathExists fs dest = true)
    (hsrc : readFile fs src = some (headers :: dataRows)) :
    (csv_split fs src dest pfx epf).1 = .ok () ∧
    (∀ t c, (chunks (epf.toNat - 1) dataRows).get? t = some c →
      (headers ≠ [] →
        readFile (csv_split fs src dest pfx epf).2 (targetPath dest pfx t)
          = some (headers :: c)) ∧
      (headers = [] →
        readFile (csv_split fs src dest pfx epf).2 (targetPath dest pfx t)
          = some c)) := by
  rw [csv_split_ok fs src dest pfx epf headers dataRows h1 hdest hsrc]
  refine ⟨rfl, ?_⟩
  intro t c hc
  have h2 := splitLoop_readFile_chunk dest pfx headers (epf.toNat - 1)
    { fs with trace := fs.trace ++ [Event.openReadE src] } dataRows 0 t c hc
  constructor
  · intro hne
    cases headers with
    | nil => exact absurd rfl hne
    | cons a l =>
        rw [hdrPart_cons] at h2
        simpa using h2
  · intro hnil
    subst hnil
    rw [hdrPart_nil] at h2
    simpa using h2

/-- C5: for a source holding only a header row and no data rows, and any
`entries_per_file >= 1`, exactly one output file is attempted, at index 0
(one open for writing, then one deletion of the same path, since it
received zero data rows), the `file_idx` counter is still incremented to
1 by that single iteration, and the destination ends up containing no
split files. -/
theorem csv_split_header_only_source (fs : FS) (src dest : Path) (pfx : String)
    (epf : Int) (headers : Row)
    (h1 : 1 ≤ epf) (hdest : pathExists fs dest = true)
    (hsrc : readFile fs src = some [headers])
    (hclean : ∀ t, readFile fs (targetPath dest pfx t) = none) :
    (csv_split fs src dest pfx epf).1 = .ok () ∧
    writesOf (csv_split fs src dest pfx epf).2.trace
      = writesOf fs.trace ++ [targetPath dest pfx 0] ∧
    removesOf (csv_split fs src dest pfx epf).2.trace
      = removesOf fs.trace ++ [targetPath dest pfx 0] ∧
    (∀ (fsA : FS) (k : Nat),
      (splitLoop dest pfx headers (epf.toNat - 1) fsA [] k).2 = k + 1) ∧
    (∀ t, readFile (csv_split fs src dest pfx epf).2 (targetPath dest pfx t) = none) := by
  rw [csv_split_ok fs src dest pfx epf headers [] h1 hdest hsrc]
  refine ⟨rfl, ?_, ?_, ?_, ?_⟩
  · have h2 := splitLoop_writesOf dest pfx headers (epf.toNat - 1)
      { fs with trace := fs.trace ++ [Event.openReadE src] } ([] : List Row) 0
    simp only [List.length_nil, Nat.zero_div, Nat.zero_add] at h2
    rw [show List.range 1 = [0] from rfl] at h2
    simp only [List.map_cons, List.map_nil, Nat.add_zero] at h2
    simpa [writesOf_openReadE] using h2
  · have h2 := splitLoop_removesOf dest pfx headers (epf.toNat - 1)
      { fs with trace := fs.trace ++ [Event.openReadE src] } ([] : List Row) 0
    simp only [List.length_nil, Nat.zero_div, Nat.add_zero,
      if_pos (Nat.dvd_zero _)] at h2
    simpa [removesOf_openReadE] using h2
  · intro fsA k
    rw [splitLoop_fileIdx]
    simp
  · intro t
    cases t with
    | zero =>
        have h2 := splitLoop_readFile_deleted dest pfx headers (epf.toNat - 1)
          { fs with trace := fs.trace ++ [Event.openReadE src] } ([] : List Row) 0
          (by simp)
        simpa using h2
    | succ t =>
        have hfr := splitLoop_readFile_frame dest pfx headers (epf.toNat - 1)
          { fs with trace := fs.trace ++ [Event.openReadE src] } ([] : List Row) 0
          (targetPath dest pfx (t + 1))
          (by
            intro s hs
            simp only [List.length_nil, Nat.zero_div, Nat.le_zero] at hs
            subst hs
            exact targetPath_ne (by omega))
        rw [hfr]
        exact hclean (t + 1)

/-- C6: on a valid split request, the attempted output files are exactly
the paths `targetPath dest pfx t` for the contiguous indices
`t = 0, 1, ..., n / entries_per_file`, opened in that order (one open per
attempted file, whether or not it is kept), and the only deletion, hence
the only possible gap in the surviving set, is the final attempted index,
which is deleted exactly when `entries_per_file` divides the data row
count. -/
theorem csv_split_naming_contiguous (fs : FS) (src dest : Path) (pfx : String)
    (epf : Int) (headers : Row) (dataRows : List Row)
    (h1 : 1 ≤ epf) (hdest : pathExists fs dest = true)
    (hsrc : readFile fs src = some (headers :: dataRows)) :
    (csv_split fs src dest pfx epf).1 = .ok () ∧
    writesOf (csv_split fs src dest pfx epf).2.trace
      = writesOf fs.trace
        ++ (List.range (dataRows.length / epf.toNat + 1)).map
            (fun t => targetPath dest pfx t) ∧
    removesOf (csv_split fs src dest pfx epf).2.trace
      = removesOf fs.trace
        ++ (if epf.toNat ∣ dataRows.length then
              [targetPath dest pfx (dataRows.length / epf.toNat)]
            else []) := by
  have hepf : epf.toNat - 1 + 1 = epf.toNat := by omega
  rw [csv_split_ok fs src dest pfx epf headers dataRows h1 hdest hsrc]
  refine ⟨rfl, ?_, ?_⟩
  · have h2 := splitLoop_writesOf dest pfx headers (epf.toNat - 1)
      { fs with trace := fs.trace ++ [Event.openReadE src] } dataRows 0
    rw [hepf] at h2
    simp only [Nat.zero_add] at h2
    simpa [writesOf_openReadE] using h2
  · have h2 := splitLoop_removesOf dest pfx headers (epf.toNat - 1)
      { fs with trace := fs.trace ++ [Event.openReadE src] } dataRows 0
    rw [hepf] at h2
    simp only [Nat.zero_add] at h2
    simpa [removesOf_openReadE] using h2

/-- Destination folder used in the concrete scenarios. -/
def destEx : Path := ["d"]

/-- Source file path used in the concrete scenarios. -/
def srcEx : Path := ["s"]

/-- Output file name stem used in the concrete scenarios. -/
def pfxEx : String := "out"

/-- Concrete state for the exact-multiple boundary: the source holds a
header row and exactly one data row. -/
def fsC4 : FS :=
  { dirs := [["d"]]
    files := [(["s"], [["h"], ["x"]])]
    trace := [] }

/-- C4 counterexample: with 1 data row and `entries_per_file = 1` (an
exact multiple, `k = 1`), the run does open a `(k+1)`-th file — index 1 —
that receives zero data rows; the exhaustion check does not prevent that
open, it only leads to the file being deleted afterwards (it does not
survive). -/
theorem csv_split_opens_trailing_file_at_exact_multiple :
    (csv_split fsC4 srcEx destEx pfxEx 1).1 = .ok () ∧
    Event.openWriteE (targetPath destEx pfxEx 1)
      ∈ (csv_split fsC4 srcEx destEx pfxEx 1).2.trace ∧
    readFile (csv_split fsC4 srcEx destEx pfxEx 1).2 (targetPath destEx pfxEx 1)
      = none := by
  have hok := csv_split_ok fsC4 srcEx destEx pfxEx 1 (["h"] : Row)
    ([["x"]] : List Row) (by decide) (by decide) (by decide)
  rw [hok]
  refine ⟨rfl, ?_, ?_⟩
  · apply openWriteE_mem_of_mem_writesOf
    rw [splitLoop_writesOf]
    apply List.mem_append_right
    apply List.mem_map.mpr
    refine ⟨1, ?_, rfl⟩
    decide
  · have h2 := splitLoop_readFile_deleted destEx pfxEx (["h"] : Row)
      ((1 : Int).toNat - 1)
      { fsC4 with trace := fsC4.trace ++ [Event.openReadE srcEx] }
      ([["x"]] : List Row) 0 (by decide)
    simpa using h2

/-- C4 amended: for a source with exactly `k * entries_per_file` data
rows (`k >= 1`), the split succeeds and produces exactly `k` surviving
files (indices `0` to `k - 1`), each holding exactly `entries_per_file`
data rows; a `(k+1)`-th file (index `k`) with zero data rows is attempted
(opened for writing) and immediately deleted, so no trailing empty file
survives and no file at index `k` or beyond exists afterwards. -/
theorem csv_split_exact_multiple (fs : FS) (src dest : Path) (pfx : String)
    (epf : Int) (headers : Row) (dataRows : List Row)
    (h1 : 1 ≤ epf) (hdest : pathExists fs dest = true)
    (hsrc : readFile fs src = some (headers :: dataRows))
    (hdvd : epf.toNat ∣ dataRows.length) (_hpos : 1 ≤ dataRows.length)
    (hclean : ∀ t, readFile fs (targetPath dest pfx t) = none) :
    (csv_split fs src dest pfx epf).1 = .ok () ∧
    (chunks (epf.toNat - 1) dataRows).length = dataRows.length / epf.toNat ∧
    (∀ t c, (chunks (epf.toNat - 1) dataRows).get? t = some c →
      readFile (csv_split fs src dest pfx epf).2 (targetPath dest pfx t)
        = some (hdrPart headers ++ c) ∧ c.length = epf.toNat) ∧
    Event.openWriteE (targetPath dest pfx (dataRows.length / epf.toNat))
      ∈ (csv_split fs src dest pfx epf).2.trace ∧
    (∀ t, dataRows.length / epf.toNat ≤ t →
      readFile (csv_split fs src dest pfx epf).2 (targetPath dest pfx t) = none) := by
  have hepf : epf.toNat - 1 + 1 = epf.toNat := by omega
  have hdvd' : (epf.toNat - 1 + 1) ∣ dataRows.length := hepf ▸ hdvd
  rw [csv_split_ok fs src dest pfx epf headers dataRows h1 hdest hsrc]
  refine ⟨rfl, ?_, ?_, ?_, ?_⟩
  · have := chunks_length_dvd (epf.toNat - 1) dataRows hdvd'
    rwa [hepf] at this
  · intro t c hc
    have h2 := splitLoop_readFile_chunk dest pfx headers (epf.toNat - 1)
      { fs with trace := fs.trace ++ [Event.openReadE src] } dataRows 0 t c hc
    have hfull := chunks_full_dvd (epf.toNat - 1) dataRows t c hdvd' hc
    exact ⟨by simpa using h2, hepf ▸ hfull⟩
  · apply openWriteE_mem_of_mem_writesOf
    rw [splitLoop_writesOf, hepf]
    apply List.mem_append_right
    apply List.mem_map.mpr
    refine ⟨dataRows.length / epf.toNat, ?_, by rw [Nat.zero_add]⟩
    exact List.mem_range.mpr (Nat.lt_succ_self _)
  · intro t ht
    rcases Nat.eq_or_lt_of_le ht with ht | ht
    · have h2 := splitLoop_readFile_deleted dest pfx headers (epf.toNat - 1)
        { fs with trace := fs.trace ++ [Event.openReadE src] } dataRows 0 hdvd'
      rw [hepf] at h2
      rw [← ht]
      simpa using h2
    · have hfr := splitLoop_readFile_frame dest pfx headers (epf.toNat - 1)
        { fs with trace := fs.trace ++ [Event.openReadE src] } dataRows 0
        (targetPath dest pfx t)
        (by
          intro s hs
          rw [hepf] at hs
          apply targetPath_ne
          omega)
      rw [hfr]
      exact hclean t

/-- C10: when the destination already holds a file at a target path the
split will attempt, the run still succeeds silently, that file is
truncated and overwritten with the new chunk content (header part plus
the chunk), and when the attempt at that index receives zero data rows
(the trailing index at an exact multiple) the pre-existing file is
deleted outright. -/
theorem csv_split_overwrites_preexisting (fs : FS) (src dest : Path) (pfx : String)
    (epf : Int) (headers : Row) (dataRows : List Row) (idx : Nat)
    (oldContent : List Row)
    (h1 : 1 ≤ epf) (hdest : pathExists fs dest = true)
    (hsrc : readFile fs src = some (headers :: dataRows))
    (_hattempt : idx ≤ dataRows.length / epf.toNat)
    (_hold : readFile fs (targetPath dest pfx idx) = some oldContent) :
    (csv_split fs src dest pfx epf).1 = .ok () ∧
    (∀ c, (chunks (epf.toNat - 1) dataRows).get? idx = some c →
      readFile (csv_split fs src dest pfx epf).2 (targetPath dest pfx idx)
        = some (hdrPart headers ++ c)) ∧
    (epf.toNat ∣ dataRows.length → idx = dataRows.length / epf.toNat →
      readFile (csv_split fs src dest pfx epf).2 (targetPath dest pfx idx)
        = none) := by
  have hepf : epf.toNat - 1 + 1 = epf.toNat := by omega
  rw [csv_split_ok fs src dest pfx epf headers dataRows h1 hdest hsrc]
  refine ⟨rfl, ?_, ?_⟩
  · intro c hc
    have h2 := splitLoop_readFile_chunk dest pfx headers (epf.toNat - 1)
      { fs with trace := fs.trace ++ [Event.openReadE src] } dataRows 0 idx c hc
    simpa using h2
  · intro hdvd hidx
    have hdvd' : (epf.toNat - 1 + 1) ∣ dataRows.length := hepf ▸ hdvd
    have h2 := splitLoop_readFile_deleted dest pfx headers (epf.toNat - 1)
      { fs with trace := fs.trace ++ [Event.openReadE src] } dataRows 0 hdvd'
    rw [hepf] at h2
    rw [hidx]
    simpa using h2

/-- On a valid request whose destination does not exist but whose parent
does, `csv_split` first creates the destination with `os.mkdir` and then
behaves as the chunk loop on the state extended with that directory. -/
theorem csv_split_mkdir_ok (fs : FS) (src dest : Path) (pfx : String) (epf : Int)
    (headers : Row) (dataRows : List Row)
    (h1 : 1 ≤ epf) (hdest : pathExists fs dest = false)
    (hparent : dest.dropLast = [] ∨ dest.dropLast ∈ fs.dirs)
    (hsrc : readFile fs src = some (headers :: dataRows)) :
    csv_split fs src dest pfx epf =
      (.ok (), (splitLoop dest pfx headers (epf.toNat - 1)
          { fs with dirs := dest :: fs.dirs, trace := (fs.trace ++ [Event.mkdirE dest]) ++ [Event.openReadE src] }
          dataRows 0).1) := by
  have hif : (if pathExists fs dest then Except.ok fs else mkdir fs dest)
      = Except.ok { fs with dirs := dest :: fs.dirs, trace := fs.trace ++ [Event.mkdirE dest] } := by
    rw [hdest]
    simp only [Bool.false_eq_true, if_false]
    rw [mkdir, if_pos hparent]
  have hread : openRead { fs with dirs := dest :: fs.dirs, trace := fs.trace ++ [Event.mkdirE dest] } src
      = .ok ({ fs with dirs := dest :: fs.dirs, trace := (fs.trace ++ [Event.mkdirE dest]) ++ [Event.openReadE src] },
          headers :: dataRows) := by
    obtain ⟨e, hfind, he2⟩ : ∃ e, fs.files.find? (fun e => e.1 == src) = some e
        ∧ e.2 = headers :: dataRows := by
      unfold readFile at hsrc
      cases hf : fs.files.find? (fun e => e.1 == src) with
      | none => rw [hf] at hsrc; simp at hsrc
      | some e =>
          rw [hf] at hsrc
          simp at hsrc
          exact ⟨e, rfl, hsrc⟩
    unfold openRead
    rw [show ({ fs with dirs := dest :: fs.dirs, trace := fs.trace ++ [Event.mkdirE dest] } : FS).files = fs.files from rfl,
      hfind]
    show Except.ok ({ fs with dirs := dest :: fs.dirs, trace := (fs.trace ++ [Event.mkdirE dest]) ++ [Event.openReadE src] }, e.2)
      = Except.ok ({ fs with dirs := dest :: fs.dirs, trace := (fs.trace ++ [Event.mkdirE dest]) ++ [Event.openReadE src] },
          headers :: dataRows)
    rw [he2]
  unfold csv_split
  rw [if_neg (by omega : ¬ epf ≤ 0)]
  split
  · rename_i e heq
    rw [hif] at heq
    simp at heq
  · rename_i fs1 heq
    rw [hif] at heq
    injection heq with hfs1
    subst hfs1
    split
    · rename_i e heq2
      rw [hread] at heq2
      simp at heq2
    · rename_i fs2 srcRows heq2
      rw [hread] at heq2
      simp only [Except.ok.injEq, Prod.mk.injEq] at heq2
      obtain ⟨hfs2, hrows⟩ := heq2
      subst hfs2
      subst hrows
      rfl

/-- C8: when the destination folder does not exist, it is created by a
single-level `os.mkdir` when its parent exists, after which the split
succeeds and the expected split files are in place; when an intermediate
path segment is missing, the split fails with the `IOError` of `os.mkdir`
and the filesystem is returned untouched — no multi-level nested path is
created. -/
theorem csv_split_dest_folder_creation (fs : FS) (src dest : Path) (pfx : String)
    (epf : Int) (headers : Row) (dataRows : List Row)
    (h1 : 1 ≤ epf) (hdest : pathExists fs dest = false) :
    ((dest.dropLast = [] ∨ dest.dropLast ∈ fs.dirs) →
      readFile fs src = some (headers :: dataRows) →
      ((csv_split fs src dest pfx epf).1 = .ok () ∧
       (csv_split fs src dest pfx epf).2.dirs = dest :: fs.dirs ∧
       dest ∈ (csv_split fs src dest pfx epf).2.dirs ∧
       (∀ t c, (chunks (epf.toNat - 1) dataRows).get? t = some c →
         readFile (csv_split fs src dest pfx epf).2 (targetPath dest pfx t)
           = some (hdrPart headers ++ c)))) ∧
    (¬(dest.dropLast = [] ∨ dest.dropLast ∈ fs.dirs) →
      csv_split fs src dest pfx epf = (.error (.ioError mkdirFailMsg), fs)) := by
  constructor
  · intro hparent hsrc
    rw [csv_split_mkdir_ok fs src dest pfx epf headers dataRows h1 hdest hparent hsrc]
    have hdirs : ((splitLoop dest pfx headers (epf.toNat - 1)
        { fs with dirs := dest :: fs.dirs, trace := (fs.trace ++ [Event.mkdirE dest]) ++ [Event.openReadE src] }
        dataRows 0).1).dirs = dest :: fs.dirs :=
      splitLoop_dirs ..
    refine ⟨rfl, hdirs, by rw [hdirs]; exact List.mem_cons_self .., ?_⟩
    intro t c hc
    have h2 := splitLoop_readFile_chunk dest pfx headers (epf.toNat - 1)
      { fs with dirs := dest :: fs.dirs, trace := (fs.trace ++ [Event.mkdirE dest]) ++ [Event.openReadE src] }
      dataRows 0 t c hc
    simpa using h2
  · intro hparent
    have hif : (if pathExists fs dest then Except.ok fs else mkdir fs dest)
        = Except.error (.ioError mkdirFailMsg) := by
      rw [hdest]
      simp only [Bool.false_eq_true, if_false]
      rw [mkdir, if_neg hparent]
    unfold csv_split
    rw [if_neg (by omega : ¬ epf ≤ 0)]
    split
    · rename_i e heq
      rw [hif] at heq
      injection heq with he
      subst he
      rfl
    · rename_i fs1 heq
      rw [hif] at heq
      simp at heq

/-- C9: on a source from which no header row is obtainable (a source with
no rows at all makes `next(reader)` raise), the split fails with the
error the spec taxonomy calls `FormatError`, the failure is surfaced to
the caller, and no output files are written: the files and directories
are unchanged and the trace gains no write event. -/
theorem csv_split_empty_source_fails (fs : FS) (src dest : Path) (pfx : String)
    (epf : Int)
    (h1 : 1 ≤ epf) (hdest : pathExists fs dest = true)
    (hsrc : readFile fs src = some []) :
    (csv_split fs src dest pfx epf).1 = .error (.formatError noHeaderMsg) ∧
    (csv_split fs src dest pfx epf).2.files = fs.files ∧
    (csv_split fs src dest pfx epf).2.dirs = fs.dirs ∧
    writesOf (csv_split fs src dest pfx epf).2.trace = writesOf fs.trace := by
  have hif : (if pathExists fs dest then Except.ok fs else mkdir fs dest)
      = Except.ok fs := by
    rw [hdest]
    simp
  have hread : openRead fs src
      = .ok ({ fs with trace := fs.trace ++ [Event.openReadE src] }, []) := by
    obtain ⟨e, hfind, he2⟩ : ∃ e, fs.files.find? (fun e => e.1 == src) = some e
        ∧ e.2 = [] := by
      unfold readFile at hsrc
      cases hf : fs.files.find? (fun e => e.1 == src) with
      | none => rw [hf] at hsrc; simp at hsrc
      | some e =>
          rw [hf] at hsrc
          simp at hsrc
          exact ⟨e, rfl, hsrc⟩
    unfold openRead
    rw [hfind]
    show Except.ok ({ fs with trace := fs.trace ++ [Event.openReadE src] }, e.2)
        = Except.ok ({ fs with trace := fs.trace ++ [Event.openReadE src] }, [])
    rw [he2]
  have hrun : csv_split fs src dest pfx epf
      = (.error (.formatError noHeaderMsg),
          { fs with trace := fs.trace ++ [Event.openReadE src] }) := by
    unfold csv_split
    rw [if_neg (by omega : ¬ epf ≤ 0)]
    split
    · rename_i e heq
      rw [hif] at heq
      simp at heq
    · rename_i fs1 heq
      rw [hif] at heq
      injection heq with hfs1
      subst hfs1
      split
      · rename_i e heq2
        rw [hread] at heq2
        simp at heq2
      · rename_i fs2 srcRows heq2
        rw [hread] at heq2
        simp only [Except.ok.injEq, Prod.mk.injEq] at heq2
        obtain ⟨hfs2, hrows⟩ := heq2
        subst hfs2
        subst hrows
        rfl
  rw [hrun]
  exact ⟨rfl, rfl, rfl, writesOf_openReadE fs.trace src⟩

/-- Concrete state with a source of one header row and three data rows. -/
def fsEx : FS :=
  { dirs := [["d"]]
    files := [(["s"], [["h"], ["r1"], ["r2"], ["r3"]])]
    trace := [] }

/-- Concrete state with a source of one header row and no data rows. -/
def fsH : FS :=
  { dirs := [["d"]]
    files := [(["s"], [["h"]])]
    trace := [] }

/-- Concrete state with a pre-existing output file at index 0. -/
def fsPre : FS :=
  { dirs := [["d"]]
    files := [(["s"], [["h"], ["r1"], ["r2"]]), (["d", "out_0.csv"], [["old"]])]
    trace := [] }

/-- Concrete state where the destination folder does not exist yet. -/
def fsNoDir : FS :=
  { dirs := []
    files := [(["s"], [["h"], ["r1"]])]
    trace := [] }

/-- Concrete state with a completely empty source file. -/
def fsEmpty : FS :=
  { dirs := [["d"]]
    files := [(["s"], [])]
    trace := [] }

theorem fsC4_clean : ∀ t, readFile fsC4 (targetPath destEx pfxEx t) = none := by
  intro t
  rfl

theorem fsH_clean : ∀ t, readFile fsH (targetPath destEx pfxEx t) = none := by
  intro t
  rfl

/-- Witness for C1 at the concrete request with 3 data rows and
`entries_per_file = 2`. -/
theorem csv_split_partitions_rows_witness :
    (csv_split fsEx srcEx destEx pfxEx 2).1 = .ok () ∧
    (∀ t c, (chunks ((2 : Int).toNat - 1) [["r1"], ["r2"], ["r3"]]).get? t = some c →
      readFile (csv_split fsEx srcEx destEx pfxEx 2).2 (targetPath destEx pfxEx t)
        = some (hdrPart ["h"] ++ c)) ∧
    (chunks ((2 : Int).toNat - 1) [["r1"], ["r2"], ["r3"]]).flatten
      = [["r1"], ["r2"], ["r3"]] ∧
    ((2 : Int).toNat ∣ ([["r1"], ["r2"], ["r3"]] : List Row).length →
      readFile (csv_split fsEx srcEx destEx pfxEx 2).2
        (targetPath destEx pfxEx
          (([["r1"], ["r2"], ["r3"]] : List Row).length / (2 : Int).toNat)) = none) :=
  csv_split_partitions_rows fsEx srcEx destEx pfxEx 2 (["h"] : Row)
    ([["r1"], ["r2"], ["r3"]] : List Row) (by decide) (by decide) (by decide)

/-- Witness for C2 at the concrete request with 3 data rows and
`entries_per_file = 1`, so that the trailing-deletion clause is
exercised non-vacuously (1 divides 3). -/
theorem csv_split_file_sizes_witness :
    (csv_split fsEx srcEx destEx pfxEx 1).1 = .ok () ∧
    (∀ t c, (chunks ((1 : Int).toNat - 1) [["r1"], ["r2"], ["r3"]]).get? t = some c →
      readFile (csv_split fsEx srcEx destEx pfxEx 1).2 (targetPath destEx pfxEx t)
        = some (hdrPart ["h"] ++ c) ∧
      1 ≤ c.length ∧ c.length ≤ (1 : Int).toNat ∧
      (t + 1 < (chunks ((1 : Int).toNat - 1) [["r1"], ["r2"], ["r3"]]).length →
        c.length = (1 : Int).toNat)) ∧
    ((1 : Int).toNat ∣ ([["r1"], ["r2"], ["r3"]] : List Row).length →
      readFile (csv_split fsEx srcEx destEx pfxEx 1).2
        (targetPath destEx pfxEx
          (([["r1"], ["r2"], ["r3"]] : List Row).length / (1 : Int).toNat)) = none) :=
  csv_split_file_sizes fsEx srcEx destEx pfxEx 1 (["h"] : Row)
    ([["r1"], ["r2"], ["r3"]] : List Row) (by decide) (by decide) (by decide)

/-- Witness for C3: `entries_per_file = 0` is rejected with the
filesystem untouched. -/
theorem csv_split_rejects_nonpositive_witness :
    csv_split fsEx srcEx destEx pfxEx 0
      = (.error (.invalidArgument entriesMsg), fsEx) ∧
    entriesMsg = "The file " ++ "must have one or more entries" :=
  csv_split_rejects_nonpositive fsEx srcEx destEx pfxEx 0 (by decide)

/-- Witness for C4 (amended) at the concrete request with 1 data row and
`entries_per_file = 1`. -/
theorem csv_split_exact_multiple_witness :
    (csv_split fsC4 srcEx destEx pfxEx 1).1 = .ok () ∧
    (chunks ((1 : Int).toNat - 1) [["x"]]).length
      = ([["x"]] : List Row).length / (1 : Int).toNat ∧
    (∀ t c, (chunks ((1 : Int).toNat - 1) [["x"]]).get? t = some c →
      readFile (csv_split fsC4 srcEx destEx pfxEx 1).2 (targetPath destEx pfxEx t)
        = some (hdrPart ["h"] ++ c) ∧ c.length = (1 : Int).toNat) ∧
    Event.openWriteE (targetPath destEx pfxEx
        (([["x"]] : List Row).length / (1 : Int).toNat))
      ∈ (csv_split fsC4 srcEx destEx pfxEx 1).2.trace ∧
    (∀ t, ([["x"]] : List Row).length / (1 : Int).toNat ≤ t →
      readFile (csv_split fsC4 srcEx destEx pfxEx 1).2 (targetPath destEx pfxEx t)
        = none) :=
  csv_split_exact_multiple fsC4 srcEx destEx pfxEx 1 (["h"] : Row)
    ([["x"]] : List Row) (by decide) (by decide) (by decide) (by decide) (by decide)
    fsC4_clean

/-- Witness for C5 at the concrete header-only request. -/
theorem csv_split_header_only_source_witness :
    (csv_split fsH srcEx destEx pfxEx 3).1 = .ok () ∧
    writesOf (csv_split fsH srcEx destEx pfxEx 3).2.trace
      = writesOf fsH.trace ++ [targetPath destEx pfxEx 0] ∧
    removesOf (csv_split fsH srcEx destEx pfxEx 3).2.trace
      = removesOf fsH.trace ++ [targetPath destEx pfxEx 0] ∧
    (∀ (fsA : FS) (k : Nat),
      (splitLoop destEx pfxEx ["h"] ((3 : Int).toNat - 1) fsA [] k).2 = k + 1) ∧
    (∀ t, readFile (csv_split fsH srcEx destEx pfxEx 3).2 (targetPath destEx pfxEx t)
      = none) :=
  csv_split_header_only_source fsH srcEx destEx pfxEx 3 (["h"] : Row)
    (by decide) (by decide) (by decide) fsH_clean

/-- Witness for C6 at the concrete request with 3 data rows and
`entries_per_file = 2`. -/
theorem csv_split_naming_contiguous_witness :
    (csv_split fsEx srcEx destEx pfxEx 2).1 = .ok () ∧
    writesOf (csv_split fsEx srcEx destEx pfxEx 2).2.trace
      = writesOf fsEx.trace
        ++ (List.range (([["r1"], ["r2"], ["r3"]] : List Row).length / (2 : Int).toNat + 1)).map
            (fun t => targetPath destEx pfxEx t) ∧
    removesOf (csv_split fsEx srcEx destEx pfxEx 2).2.trace
      = removesOf fsEx.trace
        ++ (if (2 : Int).toNat ∣ ([["r1"], ["r2"], ["r3"]] : List Row).length then
              [targetPath destEx pfxEx
                (([["r1"], ["r2"], ["r3"]] : List Row).length / (2 : Int).toNat)]
            else []) :=
  csv_split_naming_contiguous fsEx srcEx destEx pfxEx 2 (["h"] : Row)
    ([["r1"], ["r2"], ["r3"]] : List Row) (by decide) (by decide) (by decide)

/-- Witness for C7 at the concrete request with a non-empty header. -/
theorem csv_split_header_row_witness :
    (csv_split fsEx srcEx destEx pfxEx 2).1 = .ok () ∧
    (∀ t c, (chunks ((2 : Int).toNat - 1) [["r1"], ["r2"], ["r3"]]).get? t = some c →
      ((["h"] : Row) ≠ [] →
        readFile (csv_split fsEx srcEx destEx pfxEx 2).2 (targetPath destEx pfxEx t)
          = some (["h"] :: c)) ∧
      ((["h"] : Row) = [] →
        readFile (csv_split fsEx srcEx destEx pfxEx 2).2 (targetPath destEx pfxEx t)
          = some c)) :=
  csv_split_header_row fsEx srcEx destEx pfxEx 2 (["h"] : Row)
    ([["r1"], ["r2"], ["r3"]] : List Row) (by decide) (by decide) (by decide)

/-- Witness for C8 at a concrete request whose destination folder is
missing; its single segment has the working directory as parent. -/
theorem csv_split_dest_folder_creation_witness :
    (((["d"] : Path).dropLast = [] ∨ (["d"] : Path).dropLast ∈ fsNoDir.dirs) →
      readFile fsNoDir srcEx = some (["h"] :: [["r1"]]) →
      ((csv_split fsNoDir srcEx destEx pfxEx 2).1 = .ok () ∧
       (csv_split fsNoDir srcEx destEx pfxEx 2).2.dirs = destEx :: fsNoDir.dirs ∧
       destEx ∈ (csv_split fsNoDir srcEx destEx pfxEx 2).2.dirs ∧
       (∀ t c, (chunks ((2 : Int).toNat - 1) [["r1"]]).get? t = some c →
         readFile (csv_split fsNoDir srcEx destEx pfxEx 2).2 (targetPath destEx pfxEx t)
           = some (hdrPart ["h"] ++ c)))) ∧
    (¬((["d"] : Path).dropLast = [] ∨ (["d"] : Path).dropLast ∈ fsNoDir.dirs) →
      csv_split fsNoDir srcEx destEx pfxEx 2
        = (.error (.ioError mkdirFailMsg), fsNoDir)) :=
  csv_split_dest_folder_creation fsNoDir srcEx destEx pfxEx 2 (["h"] : Row)
    ([["r1"]] : List Row) (by decide) (by decide)

/-- Witness for C9 at the concrete empty source. -/
theorem csv_split_empty_source_fails_witness :
    (csv_split fsEmpty srcEx destEx pfxEx 2).1 = .error (.formatError noHeaderMsg) ∧
    (csv_split fsEmpty srcEx destEx pfxEx 2).2.files = fsEmpty.files ∧
    (csv_split fsEmpty srcEx destEx pfxEx 2).2.dirs = fsEmpty.dirs ∧
    writesOf (csv_split fsEmpty srcEx destEx pfxEx 2).2.trace
      = writesOf fsEmpty.trace :=
  csv_split_empty_source_fails fsEmpty srcEx destEx pfxEx 2
    (by decide) (by decide) (by decide)

/-- Witness for C10 at the concrete request with a pre-existing file at
output index 0. -/
theorem csv_split_overwrites_preexisting_witness :
    (csv_split fsPre srcEx destEx pfxEx 2).1 = .ok () ∧
    (∀ c, (chunks ((2 : Int).toNat - 1) [["r1"], ["r2"]]).get? 0 = some c →
      readFile (csv_split fsPre srcEx destEx pfxEx 2).2 (targetPath destEx pfxEx 0)
        = some (hdrPart ["h"] ++ c)) ∧
    ((2 : Int).toNat ∣ ([["r1"], ["r2"]] : List Row).length →
      0 = ([["r1"], ["r2"]] : List Row).length / (2 : Int).toNat →
      readFile (csv_split fsPre srcEx destEx pfxEx 2).2 (targetPath destEx pfxEx 0)
        = none) :=
  csv_split_overwrites_preexisting fsPre srcEx destEx pfxEx 2 (["h"] : Row)
    ([["r1"], ["r2"]] : List Row) 0 ([["old"]] : List Row)
    (by decide) (by decide) (by decide) (by decide) (by decide)

end CsvSplit
